import Mathlib

/-!
Verification of the lead-lag pair-trading engine core
(`order_book.cpp` / `pair_strategy.cpp`).

Doubles are modelled as rationals (`ℚ`); the C++ accumulation loops are
embedded as left folds with the same accumulation order; the mutable
`OrderBook` and `PairStrategy` objects are embedded as functional state
passing.
-/

/-- `struct Order { double price; double quantity; }` from `order_book.hpp`. -/
structure Order where
  price : ℚ
  quantity : ℚ
deriving DecidableEq, Repr

/-- The `OrderBook` state: the two order sequences `bids` and `asks`
(the mutex only serializes access and has no sequential effect). -/
structure OrderBook where
  bids : List Order
  asks : List Order
deriving DecidableEq, Repr

/-- `OrderBook::OrderBook()`: both sequences start empty. -/
def OrderBook.empty : OrderBook := ⟨[], []⟩

/-- `OrderBook::add_order(price, quantity, is_bid)`: `push_back` of a new
`Order(price, quantity)` onto `bids` when `is_bid`, else onto `asks`. -/
def OrderBook.add_order (b : OrderBook) (price quantity : ℚ) (is_bid : Bool) :
    OrderBook :=
  if is_bid then { b with bids := b.bids ++ [⟨price, quantity⟩] }
  else { b with asks := b.asks ++ [⟨price, quantity⟩] }

/-- The accumulation loop `for (o : side) total += o->quantity`, starting
from `0.0`, embedded as the same left fold. -/
def sideVolume (side : List Order) : ℚ :=
  side.foldl (fun acc o => acc + o.quantity) 0

/-- `OrderBook::get_imbalance()`: sums both sides, returns `0.0` when the
total is exactly `0`, else `(total_bid_vol - total_ask_vol) / total_vol`. -/
def OrderBook.get_imbalance (b : OrderBook) : ℚ :=
  let total_bid_vol := sideVolume b.bids
  let total_ask_vol := sideVolume b.asks
  let total_vol := total_bid_vol + total_ask_vol
  if total_vol = 0 then 0 else (total_bid_vol - total_ask_vol) / total_vol

/-- `OrderBook::clear()`: empties both sequences. -/
def OrderBook.clear (_b : OrderBook) : OrderBook := ⟨[], []⟩

/-- `OrderBook::get_bid_count()`: `bids.size()`. -/
def OrderBook.get_bid_count (b : OrderBook) : Nat := b.bids.length

/-- `OrderBook::get_ask_count()`: `asks.size()`. -/
def OrderBook.get_ask_count (b : OrderBook) : Nat := b.asks.length

/-- The `PairStrategy` state: the two owned books and the immutable
`entry_threshold` fixed at construction. -/
structure PairStrategy where
  leader_book : OrderBook
  follower_book : OrderBook
  entry_threshold : ℚ
deriving DecidableEq, Repr

/-- `PairStrategy::PairStrategy(threshold)`: fresh empty books, stores the
threshold. -/
def PairStrategy.construct (threshold : ℚ) : PairStrategy :=
  ⟨OrderBook.empty, OrderBook.empty, threshold⟩

/-- `PairStrategy::on_market_data(symbol_type, price, quantity, is_bid)`:
routes to the leader book when `symbol_type == 0`, to the follower book when
`symbol_type == 1`, and otherwise does nothing. -/
def PairStrategy.on_market_data (s : PairStrategy) (symbol_type : Int)
    (price quantity : ℚ) (is_bid : Bool) : PairStrategy :=
  if symbol_type = 0 then
    { s with leader_book := s.leader_book.add_order price quantity is_bid }
  else if symbol_type = 1 then
    { s with follower_book := s.follower_book.add_order price quantity is_bid }
  else s

/-- `PairStrategy::check_signals()`: `1` when the leader imbalance is
strictly above `entry_threshold`, else `-1` when strictly below
`-entry_threshold`, else `0`. -/
def PairStrategy.check_signals (s : PairStrategy) : Int :=
  let leader_obi := s.leader_book.get_imbalance
  if leader_obi > s.entry_threshold then 1
  else if leader_obi < -s.entry_threshold then -1
  else 0

/-- `PairStrategy::get_leader_imbalance()`. -/
def PairStrategy.get_leader_imbalance (s : PairStrategy) : ℚ :=
  s.leader_book.get_imbalance

/-- One `add_order` call, as data: the arguments `(price, quantity, is_bid)`. -/
structure AddCall where
  price : ℚ
  quantity : ℚ
  is_bid : Bool
deriving DecidableEq, Repr

/-- Execute a sequence of `add_order` calls against a book, in order. -/
def runAdds (b : OrderBook) (calls : List AddCall) : OrderBook :=
  calls.foldl (fun bk c => bk.add_order c.price c.quantity c.is_bid) b

/-- One public mutating `OrderBook` operation, as data. -/
inductive BookOp where
  | add (price quantity : ℚ) (is_bid : Bool)
  | clear
deriving DecidableEq, Repr

/-- Execute one `BookOp`. -/
def applyOp (b : OrderBook) : BookOp → OrderBook
  | .add p q bid => b.add_order p q bid
  | .clear => b.clear

/-- Execute a sequence of `BookOp`s against a book, in order. -/
def runOps (b : OrderBook) (ops : List BookOp) : OrderBook :=
  ops.foldl applyOp b

/-- The suffix of calls after the last `clear` of the history (the whole
history when no `clear` occurs), collected left to right. -/
def opsSinceClear (ops : List BookOp) : List BookOp :=
  ops.foldl (fun acc op => match op with
    | .clear => []
    | o => acc ++ [o]) []

/-- Does a `BookOp` add a bid? -/
def isBidAdd : BookOp → Bool
  | .add _ _ true => true
  | _ => false

/-- Does a `BookOp` add an ask? -/
def isAskAdd : BookOp → Bool
  | .add _ _ false => true
  | _ => false

-- Helper lemmas -----------------------------------------------------------

lemma sideVolume_eq_sum (side : List Order) :
    sideVolume side = (side.map Order.quantity).sum := by
  have key : ∀ (l : List Order) (a : ℚ),
      l.foldl (fun acc o => acc + o.quantity) a = a + (l.map Order.quantity).sum := by
    intro l
    induction l with
    | nil => intro a; simp
    | cons x xs ih =>
        intro a
        simp only [List.foldl_cons, List.map_cons, List.sum_cons, ih]
        ring
  simpa [sideVolume] using key side 0

lemma sideVolume_append (l1 l2 : List Order) :
    sideVolume (l1 ++ l2) = sideVolume l1 + sideVolume l2 := by
  simp [sideVolume_eq_sum]

/-- C1 (confirmed): `get_imbalance` returns exactly `0` when the sum of all
bid quantities plus the sum of all ask quantities is `0`, and otherwise
returns `(totalBidVol - totalAskVol) / (totalBidVol + totalAskVol)`, where
the totals are the sums of the quantities stored in `bids` and `asks`. -/
theorem get_imbalance_spec (b : OrderBook) :
    b.get_imbalance =
      if (b.bids.map Order.quantity).sum + (b.asks.map Order.quantity).sum = 0
      then 0
      else ((b.bids.map Order.quantity).sum - (b.asks.map Order.quantity).sum) /
        ((b.bids.map Order.quantity).sum + (b.asks.map Order.quantity).sum) := by
  simp [OrderBook.get_imbalance, sideVolume_eq_sum]

lemma runAdds_bids (calls : List AddCall) :
    ∀ b : OrderBook, (runAdds b calls).bids =
      b.bids ++ (calls.filter fun c => c.is_bid).map
        (fun c => Order.mk c.price c.quantity) := by
  induction calls with
  | nil => intro b; simp [runAdds]
  | cons c cs ih =>
      intro b
      have step : runAdds b (c :: cs) =
          runAdds (b.add_order c.price c.quantity c.is_bid) cs := rfl
      rw [step, ih]
      cases hc : c.is_bid <;>
        simp [OrderBook.add_order, hc, List.filter_cons]

lemma runAdds_asks (calls : List AddCall) :
    ∀ b : OrderBook, (runAdds b calls).asks =
      b.asks ++ (calls.filter fun c => !c.is_bid).map
        (fun c => Order.mk c.price c.quantity) := by
  induction calls with
  | nil => intro b; simp [runAdds]
  | cons c cs ih =>
      intro b
      have step : runAdds b (c :: cs) =
          runAdds (b.add_order c.price c.quantity c.is_bid) cs := rfl
      rw [step, ih]
      cases hc : c.is_bid <;>
        simp [OrderBook.add_order, hc, List.filter_cons]

/-- C3 (confirmed): executing any permutation of the same multiset of
`add_order` calls against an empty book yields the same total bid volume,
the same total ask volume, and the same `get_imbalance` value. -/
theorem runAdds_perm_invariant (l1 l2 : List AddCall) (h : l1.Perm l2) :
    sideVolume (runAdds OrderBook.empty l1).bids =
      sideVolume (runAdds OrderBook.empty l2).bids ∧
    sideVolume (runAdds OrderBook.empty l1).asks =
      sideVolume (runAdds OrderBook.empty l2).asks ∧
    (runAdds OrderBook.empty l1).get_imbalance =
      (runAdds OrderBook.empty l2).get_imbalance := by
  have hb : sideVolume (runAdds OrderBook.empty l1).bids =
      sideVolume (runAdds OrderBook.empty l2).bids := by
    rw [runAdds_bids l1 OrderBook.empty, runAdds_bids l2 OrderBook.empty]
    simp only [sideVolume_eq_sum, OrderBook.empty, List.nil_append]
    exact (((h.filter _).map _).map _).sum_eq
  have ha : sideVolume (runAdds OrderBook.empty l1).asks =
      sideVolume (runAdds OrderBook.empty l2).asks := by
    rw [runAdds_asks l1 OrderBook.empty, runAdds_asks l2 OrderBook.empty]
    simp only [sideVolume_eq_sum, OrderBook.empty, List.nil_append]
    exact (((h.filter _).map _).map _).sum_eq
  refine ⟨hb, ha, ?_⟩
  simp only [OrderBook.get_imbalance, hb, ha]

/-- Witness for C3 at a concrete pair of permuted call lists. -/
theorem runAdds_perm_invariant_witness :
    (runAdds OrderBook.empty
        [AddCall.mk 1 2 true, AddCall.mk 3 4 false]).get_imbalance =
      (runAdds OrderBook.empty
        [AddCall.mk 3 4 false, AddCall.mk 1 2 true]).get_imbalance :=
  (runAdds_perm_invariant _ _ (List.Perm.swap _ _ _)).2.2

/-- C2 counterexample: with `entry_threshold = -1/2` and a leader book
holding bid quantity `1` and ask quantity `3`, the leader imbalance equals
the threshold exactly, yet `check_signals` returns `-1`, not `0`. -/
theorem check_signals_boundary_counterexample :
    ((PairStrategy.mk
        ((OrderBook.empty.add_order 10 1 true).add_order 10 3 false)
        OrderBook.empty (-(1/2))).get_leader_imbalance =
      (PairStrategy.mk
        ((OrderBook.empty.add_order 10 1 true).add_order 10 3 false)
        OrderBook.empty (-(1/2))).entry_threshold) ∧
    (PairStrategy.mk
        ((OrderBook.empty.add_order 10 1 true).add_order 10 3 false)
        OrderBook.empty (-(1/2))).check_signals = -1 := by
  constructor <;>
    norm_num [PairStrategy.get_leader_imbalance, PairStrategy.check_signals,
      OrderBook.get_imbalance, OrderBook.add_order, OrderBook.empty, sideVolume]

/-- C2 (amended): `check_signals` returns `1` when the leader imbalance is
strictly above the threshold, else `-1` when strictly below the negated
threshold, else `0`; and when the threshold is non-negative, an imbalance
exactly equal to the threshold or its negation yields `0`. -/
theorem check_signals_spec (s : PairStrategy) :
    s.check_signals =
      (if s.get_leader_imbalance > s.entry_threshold then 1
       else if s.get_leader_imbalance < -s.entry_threshold then -1 else 0) ∧
    (0 ≤ s.entry_threshold →
      (s.get_leader_imbalance = s.entry_threshold ∨
       s.get_leader_imbalance = -s.entry_threshold) →
      s.check_signals = 0) := by
  constructor
  · rfl
  · intro hT hEq
    simp only [PairStrategy.check_signals, PairStrategy.get_leader_imbalance] at *
    rcases hEq with h | h <;>
      · rw [h]
        split_ifs with h1 h2 <;> first | rfl | linarith

/-- Witness for C2 at a concrete strategy with threshold `0` and an empty
leader book (imbalance `0`, equal to the threshold). -/
theorem check_signals_spec_witness :
    0 ≤ (PairStrategy.construct 0).entry_threshold ∧
    (PairStrategy.construct 0).get_leader_imbalance =
      (PairStrategy.construct 0).entry_threshold ∧
    (PairStrategy.construct 0).check_signals = 0 :=
  ⟨le_refl 0,
    by simp [PairStrategy.construct, PairStrategy.get_leader_imbalance,
      OrderBook.empty, OrderBook.get_imbalance, sideVolume],
    (check_signals_spec (PairStrategy.construct 0)).2 (le_refl 0)
      (Or.inl (by simp [PairStrategy.construct, PairStrategy.get_leader_imbalance,
        OrderBook.empty, OrderBook.get_imbalance, sideVolume]))⟩

/-- C4 (confirmed): after any sequence of `add_order` calls with
non-negative quantities, `get_imbalance` lies in `[-1, 1]`. -/
theorem get_imbalance_in_range (calls : List AddCall)
    (h : ∀ c ∈ calls, 0 ≤ c.quantity) :
    -1 ≤ (runAdds OrderBook.empty calls).get_imbalance ∧
    (runAdds OrderBook.empty calls).get_imbalance ≤ 1 := by
  have hbid : 0 ≤ sideVolume (runAdds OrderBook.empty calls).bids := by
    rw [sideVolume_eq_sum]
    apply List.sum_nonneg
    intro x hx
    rw [runAdds_bids calls OrderBook.empty] at hx
    simp only [OrderBook.empty, List.nil_append, List.map_map, List.mem_map,
      Function.comp] at hx
    obtain ⟨c, hc, rfl⟩ := hx
    exact h c (List.mem_of_mem_filter hc)
  have hask : 0 ≤ sideVolume (runAdds OrderBook.empty calls).asks := by
    rw [sideVolume_eq_sum]
    apply List.sum_nonneg
    intro x hx
    rw [runAdds_asks calls OrderBook.empty] at hx
    simp only [OrderBook.empty, List.nil_append, List.map_map, List.mem_map,
      Function.comp] at hx
    obtain ⟨c, hc, rfl⟩ := hx
    exact h c (List.mem_of_mem_filter hc)
  simp only [OrderBook.get_imbalance]
  split_ifs with h0
  · constructor <;> norm_num
  · have hpos : 0 < sideVolume (runAdds OrderBook.empty calls).bids +
        sideVolume (runAdds OrderBook.empty calls).asks :=
      lt_of_le_of_ne (by linarith) (Ne.symm h0)
    constructor
    · rw [le_div_iff₀ hpos]; linarith
    · rw [div_le_one hpos]; linarith

/-- Witness for C4 at a concrete call list with non-negative quantities. -/
theorem get_imbalance_in_range_witness :
    -1 ≤ (runAdds OrderBook.empty
        [AddCall.mk 1 2 true, AddCall.mk 5 6 false]).get_imbalance ∧
    (runAdds OrderBook.empty
        [AddCall.mk 1 2 true, AddCall.mk 5 6 false]).get_imbalance ≤ 1 :=
  get_imbalance_in_range _ (by decide)

lemma runOps_counts (ops : List BookOp) :
    ∀ (b : OrderBook) (acc : List BookOp),
      b.bids.length = acc.countP isBidAdd →
      b.asks.length = acc.countP isAskAdd →
      (runOps b ops).bids.length =
        (ops.foldl (fun a op => match op with
          | .clear => []
          | o => a ++ [o]) acc).countP isBidAdd ∧
      (runOps b ops).asks.length =
        (ops.foldl (fun a op => match op with
          | .clear => []
          | o => a ++ [o]) acc).countP isAskAdd := by
  induction ops with
  | nil => intro b acc hb ha; exact ⟨hb, ha⟩
  | cons op rest ih =>
      intro b acc hb ha
      cases op with
      | add p q bid =>
          cases bid with
          | true =>
              refine ih (b.add_order p q true) (acc ++ [.add p q true]) ?_ ?_ <;>
                simp [OrderBook.add_order, List.countP_append, isBidAdd,
                  isAskAdd, hb, ha, List.countP_cons]
          | false =>
              refine ih (b.add_order p q false) (acc ++ [.add p q false]) ?_ ?_ <;>
                simp [OrderBook.add_order, List.countP_append, isBidAdd,
                  isAskAdd, hb, ha, List.countP_cons]
      | clear =>
          refine ih b.clear [] ?_ ?_ <;> simp [OrderBook.clear]

/-- C5 (confirmed): after any history of operations starting from a fresh
book, `get_bid_count` equals the number of `add_order` calls with
`is_bid = true` since the last `clear` (the whole history when no `clear`
occurred), and `get_ask_count` the number with `is_bid = false`. -/
theorem counts_since_clear (ops : List BookOp) :
    (runOps OrderBook.empty ops).get_bid_count =
      (opsSinceClear ops).countP isBidAdd ∧
    (runOps OrderBook.empty ops).get_ask_count =
      (opsSinceClear ops).countP isAskAdd := by
  have h := runOps_counts ops OrderBook.empty [] (by simp [OrderBook.empty])
    (by simp [OrderBook.empty])
  exact ⟨h.1, h.2⟩

/-- C6 (confirmed): `on_market_data` with a role other than `0` (leader)
and `1` (follower) leaves both books unchanged and raises no error. -/
theorem on_market_data_invalid_role (s : PairStrategy) (role : Int)
    (p q : ℚ) (bid : Bool) (h0 : role ≠ 0) (h1 : role ≠ 1) :
    (s.on_market_data role p q bid).leader_book = s.leader_book ∧
    (s.on_market_data role p q bid).follower_book = s.follower_book := by
  simp [PairStrategy.on_market_data, h0, h1]

/-- Witness for C6 at role `2` on a concrete strategy. -/
theorem on_market_data_invalid_role_witness :
    ((PairStrategy.construct 1).on_market_data 2 5 7 true).leader_book =
      (PairStrategy.construct 1).leader_book ∧
    ((PairStrategy.construct 1).on_market_data 2 5 7 true).follower_book =
      (PairStrategy.construct 1).follower_book :=
  on_market_data_invalid_role (PairStrategy.construct 1) 2 5 7 true
    (by decide) (by decide)

/-- C7 (confirmed): after `clear`, both sequences are empty, both counts
are `0`, `get_imbalance` is exactly `0`, and `get_leader_imbalance` of a
strategy whose leader book was cleared is exactly `0`. -/
theorem clear_resets (b : OrderBook) (s : PairStrategy) :
    b.clear.bids = [] ∧ b.clear.asks = [] ∧
    b.clear.get_imbalance = 0 ∧
    b.clear.get_bid_count = 0 ∧ b.clear.get_ask_count = 0 ∧
    { s with leader_book := s.leader_book.clear }.get_leader_imbalance = 0 := by
  simp [OrderBook.clear, OrderBook.get_imbalance, sideVolume,
    OrderBook.get_bid_count, OrderBook.get_ask_count,
    PairStrategy.get_leader_imbalance]

/-- C8 (confirmed): `add_order` appends exactly one new order with the
given price and quantity to the end of `bids` when `is_bid` is true and to
the end of `asks` otherwise; the other sequence and every order already
present are unchanged. -/
theorem add_order_appends (b : OrderBook) (p q : ℚ) :
    (b.add_order p q true).bids = b.bids ++ [Order.mk p q] ∧
    (b.add_order p q true).asks = b.asks ∧
    (b.add_order p q false).asks = b.asks ++ [Order.mk p q] ∧
    (b.add_order p q false).bids = b.bids := by
  simp [OrderBook.add_order]

lemma bid_quantities_factor (l : List AddCall) :
    (l.filter fun c => c.is_bid).map (fun c => c.quantity) =
      ((l.map fun c => (c.quantity, c.is_bid)).filter fun x => x.2).map
        (fun x => x.1) := by
  induction l with
  | nil => simp
  | cons c cs ih =>
      cases hc : c.is_bid <;> simp [List.filter_cons, hc, ih]

lemma ask_quantities_factor (l : List AddCall) :
    (l.filter fun c => !c.is_bid).map (fun c => c.quantity) =
      ((l.map fun c => (c.quantity, c.is_bid)).filter fun x => !x.2).map
        (fun x => x.1) := by
  induction l with
  | nil => simp
  | cons c cs ih =>
      cases hc : c.is_bid <;> simp [List.filter_cons, hc, ih]

/-- C9 (confirmed): `get_imbalance` depends only on the `(quantity, is_bid)`
projection of the `add_order` call history, never on the prices. -/
theorem get_imbalance_price_independent (l1 l2 : List AddCall)
    (h : l1.map (fun c => (c.quantity, c.is_bid)) =
      l2.map (fun c => (c.quantity, c.is_bid))) :
    (runAdds OrderBook.empty l1).get_imbalance =
      (runAdds OrderBook.empty l2).get_imbalance := by
  have hb : (l1.filter fun c => c.is_bid).map (fun c => c.quantity) =
      (l2.filter fun c => c.is_bid).map (fun c => c.quantity) := by
    rw [bid_quantities_factor l1, bid_quantities_factor l2, h]
  have ha : (l1.filter fun c => !c.is_bid).map (fun c => c.quantity) =
      (l2.filter fun c => !c.is_bid).map (fun c => c.quantity) := by
    rw [ask_quantities_factor l1, ask_quantities_factor l2, h]
  have hvb : sideVolume (runAdds OrderBook.empty l1).bids =
      sideVolume (runAdds OrderBook.empty l2).bids := by
    rw [sideVolume_eq_sum, sideVolume_eq_sum,
      runAdds_bids l1 OrderBook.empty, runAdds_bids l2 OrderBook.empty]
    simp only [OrderBook.empty, List.nil_append, List.map_map, Function.comp]
    exact congrArg List.sum hb
  have hva : sideVolume (runAdds OrderBook.empty l1).asks =
      sideVolume (runAdds OrderBook.empty l2).asks := by
    rw [sideVolume_eq_sum, sideVolume_eq_sum,
      runAdds_asks l1 OrderBook.empty, runAdds_asks l2 OrderBook.empty]
    simp only [OrderBook.empty, List.nil_append, List.map_map, Function.comp]
    exact congrArg List.sum ha
  simp only [OrderBook.get_imbalance, hvb, hva]

/-- Witness for C9 at two concrete call lists differing only in prices. -/
theorem get_imbalance_price_independent_witness :
    (runAdds OrderBook.empty
        [AddCall.mk 1 2 true, AddCall.mk 3 4 false]).get_imbalance =
      (runAdds OrderBook.empty
        [AddCall.mk 99 2 true, AddCall.mk 77 4 false]).get_imbalance :=
  get_imbalance_price_independent _ _ rfl

/-- C10 (confirmed): when the leader imbalance satisfies both signal
conditions at once (possible only with a negative threshold),
`check_signals` returns `1` because the buy branch is evaluated first; in
particular a leader imbalance of `0` with a negative threshold yields `1`. -/
theorem check_signals_overlap (s : PairStrategy) :
    (s.get_leader_imbalance > s.entry_threshold →
      s.get_leader_imbalance < -s.entry_threshold →
      s.check_signals = 1) ∧
    (s.entry_threshold < 0 → s.get_leader_imbalance = 0 →
      s.check_signals = 1) := by
  constructor
  · intro h1 _
    simp only [PairStrategy.check_signals, PairStrategy.get_leader_imbalance] at *
    rw [if_pos h1]
  · intro hT h0
    simp only [PairStrategy.check_signals, PairStrategy.get_leader_imbalance] at *
    rw [if_pos (by rw [h0]; exact hT)]

lemma construct_leader_imbalance (t : ℚ) :
    (PairStrategy.construct t).get_leader_imbalance = 0 := by
  simp [PairStrategy.construct, PairStrategy.get_leader_imbalance,
    OrderBook.empty, OrderBook.get_imbalance, sideVolume]

/-- Witness for C10: threshold `-1/2`, empty leader book (imbalance `0`),
both conditions hold and the signal is `1`. -/
theorem check_signals_overlap_witness :
    (PairStrategy.construct (-(1/2))).get_leader_imbalance >
      (PairStrategy.construct (-(1/2))).entry_threshold ∧
    (PairStrategy.construct (-(1/2))).get_leader_imbalance <
      -(PairStrategy.construct (-(1/2))).entry_threshold ∧
    (PairStrategy.construct (-(1/2))).check_signals = 1 := by
  have h1 : (PairStrategy.construct (-(1/2))).get_leader_imbalance >
      (PairStrategy.construct (-(1/2))).entry_threshold := by
    rw [construct_leader_imbalance]; norm_num [PairStrategy.construct]
  have h2 : (PairStrategy.construct (-(1/2))).get_leader_imbalance <
      -(PairStrategy.construct (-(1/2))).entry_threshold := by
    rw [construct_leader_imbalance]; norm_num [PairStrategy.construct]
  exact ⟨h1, h2, (check_signals_overlap (PairStrategy.construct (-(1/2)))).1 h1 h2⟩
